import Mathlib

/-!
Shallow embedding of the foodgram backend core (Django REST):
the relational data model (`recipes/models.py`, `users/models.py`), the
relation manager and shopping-list aggregation (`api/views.py`), and the
recipe write pipeline (`api/serializers.py`).

Database tables are lists of rows; each API operation is a pure function
from a `Store` (and the request parameters) to an `Except` value, error
meaning the Django view raised (`ValidationError` / `Http404`) and, since
every mutating view runs inside a transaction that the exception aborts,
no state change.  Row ids are `Nat`, amounts are `Nat`/`Int` as noted.
-/

namespace Foodgram

instance {ε α : Type} [DecidableEq ε] [DecidableEq α] : DecidableEq (Except ε α) := fun x y =>
  match x, y with
  | .error a, .error b =>
    if h : a = b then .isTrue (by rw [h])
    else .isFalse (fun hc => h (Except.error.inj hc))
  | .ok a, .ok b =>
    if h : a = b then .isTrue (by rw [h])
    else .isFalse (fun hc => h (Except.ok.inj hc))
  | .error _, .ok _ => .isFalse (fun hc => Except.noConfusion hc)
  | .ok _, .error _ => .isFalse (fun hc => Except.noConfusion hc)

/-- Lexicographic comparison of character lists, by code point: the model
of SQL `ORDER BY` on a text column (and of Python string order). -/
def charListLe : List Char → List Char → Bool
  | [], _ => true
  | _ :: _, [] => false
  | a :: as, b :: bs =>
    decide (a.toNat < b.toNat) ||
      (decide (a.toNat = b.toNat) && charListLe as bs)

/-- Text order on `String`, through its character list. -/
def strLe (a b : String) : Bool := charListLe a.data b.data

/-- `recipes/models.py: Ingredient` — name + measurement_unit, unique pair,
`id` primary key. -/
structure Ingredient where
  id : Nat
  name : String
  measurement_unit : String
deriving DecidableEq

/-- `recipes/models.py: Recipe` — author FK, scalar fields.  The image is
kept as an opaque reference string. -/
structure Recipe where
  id : Nat
  author : Nat
  name : String
  text : String
  image : String
  cooking_time : Nat
deriving DecidableEq

/-- `recipes/models.py: RecipeIngredient` — junction row binding a recipe to
an ingredient with a positive amount; unique (recipe, ingredient). -/
structure RecipeIngredient where
  recipe : Nat
  ingredient : Nat
  amount : Nat
deriving DecidableEq

/-- `recipes/models.py: UserRecipeRelation` — abstract (user, recipe) row;
concrete tables are FavoriteRecipe and ShoppingCart. -/
structure UserRecipeRow where
  user : Nat
  recipe : Nat
deriving DecidableEq

/-- `users/models.py: Subscription` — (user, author) row, unique pair. -/
structure SubscriptionRow where
  user : Nat
  author : Nat
deriving DecidableEq

/-- The relational store: one list per table.  Users are kept as their ids
(the only user attribute the embedded operations consult). -/
structure Store where
  users : List Nat
  ingredients : List Ingredient
  recipes : List Recipe
  recipe_ingredients : List RecipeIngredient
  favorites : List UserRecipeRow
  carts : List UserRecipeRow
  subscriptions : List SubscriptionRow
deriving DecidableEq

/-- Errors raised by the embedded views.  `http404` is Django's `Http404`
(raised by `get_object_or_404`); the rest are DRF `ValidationError`s with
the message produced at the corresponding raise site in `api/views.py`. -/
inductive ApiError where
  | http404
  | alreadyInRelation (msg : String)
  | notInRelation (msg : String)
  | selfSubscription
  | alreadySubscribed
  | notSubscribed
  | emptyCart
deriving DecidableEq

/-- The two concrete UserRecipeRelation tables used by
`RecipeViewSet.favorite` and `RecipeViewSet.shopping_cart`. -/
inductive RelationKind where
  | favorite
  | shopping_cart
deriving DecidableEq

def relationRows (s : Store) : RelationKind → List UserRecipeRow
  | .favorite => s.favorites
  | .shopping_cart => s.carts

def setRelationRows (s : Store) (k : RelationKind) (rows : List UserRecipeRow) : Store :=
  match k with
  | .favorite => { s with favorites := rows }
  | .shopping_cart => { s with carts := rows }

/-- `already_exists_message` argument passed in `api/views.py:112-133`. -/
def alreadyMsg : RelationKind → String
  | .favorite => "Рецепт уже в избранном"
  | .shopping_cart => "Рецепт уже в списке покупок"

/-- `not_found_message` argument passed in `api/views.py:112-133`. -/
def notFoundMsg : RelationKind → String
  | .favorite => "Рецепт не был в избранном"
  | .shopping_cart => "Рецепт не был в списке покупок"

/-- `api/views.py:74 RecipeViewSet._handle_recipe_relation`, POST branch:
`get_object_or_404(Recipe, pk=recipe_id)`, then `get_or_create`; if the row
already existed raise `ValidationError(already_exists_message)`, else the
freshly created row is committed and the recipe returned. -/
def handleRecipeRelationPost (s : Store) (k : RelationKind) (userId recipeId : Nat) :
    Except ApiError (Store × Recipe) :=
  match s.recipes.find? (fun r => r.id = recipeId) with
  | none => .error .http404
  | some recipe =>
    let rows := relationRows s k
    if rows.any (fun row => row.user = userId && row.recipe = recipeId) then
      .error (.alreadyInRelation (alreadyMsg k))
    else
      .ok (setRelationRows s k (rows ++ [⟨userId, recipeId⟩]), recipe)

/-- `api/views.py:98 RecipeViewSet._handle_recipe_relation`, DELETE branch:
`get_object_or_404`, then `filter(user=..., recipe=...).first()`; if no row
raise `ValidationError(not_found_message)`, else delete that row. -/
def handleRecipeRelationDelete (s : Store) (k : RelationKind) (userId recipeId : Nat) :
    Except ApiError Store :=
  match s.recipes.find? (fun r => r.id = recipeId) with
  | none => .error .http404
  | some _ =>
    let rows := relationRows s k
    match rows.find? (fun row => row.user = userId && row.recipe = recipeId) with
    | none => .error (.notInRelation (notFoundMsg k))
    | some _ =>
      .ok (setRelationRows s k
        (rows.eraseP (fun row => row.user = userId && row.recipe = recipeId)))

/-- `api/views.py:283 UserViewSet.subscribe`, POST branch:
`get_object_or_404(User, id=id)` first, then the self-subscription check
(`current_user == author`), then `get_or_create` with the duplicate check. -/
def subscribePost (s : Store) (currentUser authorId : Nat) :
    Except ApiError Store :=
  if authorId ∈ s.users then
    if currentUser = authorId then
      .error .selfSubscription
    else if s.subscriptions.any (fun row => row.user = currentUser && row.author = authorId) then
      .error .alreadySubscribed
    else
      .ok { s with subscriptions := s.subscriptions ++ [⟨currentUser, authorId⟩] }
  else .error .http404

/-- `api/views.py:303 UserViewSet.subscribe`, DELETE branch:
`get_object_or_404`, then `filter(user=..., author=...).first()`; if no row
raise `ValidationError`, else delete that row. -/
def subscribeDelete (s : Store) (currentUser authorId : Nat) :
    Except ApiError Store :=
  if authorId ∈ s.users then
    match s.subscriptions.find? (fun row => row.user = currentUser && row.author = authorId) with
    | none => .error .notSubscribed
    | some _ =>
      .ok { s with subscriptions :=
        s.subscriptions.eraseP (fun row => row.user = currentUser && row.author = authorId) }
  else .error .http404

/-! ### Shopping-list aggregation (`api/views.py:138 download_shopping_cart`) -/

/-- `ShoppingCart.objects` membership test for one (user, recipe) pair. -/
def inUserCart (s : Store) (userId recipeId : Nat) : Bool :=
  s.carts.any (fun row => row.user = userId && row.recipe = recipeId)

/-- `Recipe.objects.filter(shoppingcarts__user=request.user)`
(`api/views.py:139`).  The cart pair is unique, so the join keeps each
recipe at most once; embedded as a filter. -/
def cartRecipes (s : Store) (userId : Nat) : List Recipe :=
  s.recipes.filter (fun r => inUserCart s userId r.id)

/-- One row of the SQL join behind the aggregation query: the grouped key
`(ingredients__name, ingredients__measurement_unit)` with the joined
`recipe_ingredients__amount`. -/
abbrev AggLine := (String × String) × Nat

/-- The FROM/JOIN part of the query at `api/views.py:144-150`: cart recipes
joined to their `RecipeIngredient` rows and on to the `Ingredient` table.
Django reuses one `recipeingredient` join for both the `ingredients` m2m
path and the `recipe_ingredients` reverse-FK path (identical join field),
so each junction row appears exactly once; the ingredient lookup is by
primary key, hence `find?`. -/
def cartLines (s : Store) (userId : Nat) : List AggLine :=
  (cartRecipes s userId).flatMap (fun r =>
    (s.recipe_ingredients.filter (fun ri => ri.recipe = r.id)).filterMap (fun ri =>
      (s.ingredients.find? (fun ing => ing.id = ri.ingredient)).map
        (fun ing => ((ing.name, ing.measurement_unit), ri.amount))))

/-- SQL `GROUP BY` accumulator: add one joined row's amount into the group
of its key, appending a new group when the key is fresh. -/
def addToGroup : List AggLine → (String × String) → Nat → List AggLine
  | [], key, amt => [(key, amt)]
  | (k, t) :: rest, key, amt =>
    if k = key then (k, t + amt) :: rest
    else (k, t) :: addToGroup rest key amt

/-- `values(...).annotate(total_amount=Sum("recipe_ingredients__amount"))`:
group the joined rows by `(name, measurement_unit)` and sum amounts. -/
def groupLines : List AggLine → List AggLine
  | [] => []
  | (k, a) :: rest => addToGroup (groupLines rest) k a

/-- `order_by("ingredients__name")` compares the grouped keys' name field. -/
def lineLe (a b : AggLine) : Prop := strLe a.1.1 b.1.1 = true

instance : DecidableRel lineLe := fun a b =>
  inferInstanceAs (Decidable (strLe a.1.1 b.1.1 = true))

/-- The full `ingredients` query of `api/views.py:144-150`: join, group,
sum, order by ingredient name. -/
def aggregate (s : Store) (userId : Nat) : List AggLine :=
  List.insertionSort lineLe (groupLines (cartLines s userId))

/-- `api/views.py:138 download_shopping_cart`: if the cart queryset is
empty raise `ValidationError("Список покупок пуст")`, else build the
export from the aggregated ingredient list (header/footer rendering of the
text file is elided; the aggregated lines are the export's content). -/
def download_shopping_cart (s : Store) (userId : Nat) :
    Except ApiError (List AggLine) :=
  if cartRecipes s userId = [] then .error .emptyCart
  else .ok (aggregate s userId)

/-! ### Recipe write pipeline (`api/serializers.py: RecipeWriteSerializer`) -/

/-- One element of the submitted `ingredients` list, as deserialized JSON:
`{id, amount}` before any validation (`amount` may still be non-positive). -/
structure RawIngredientLine where
  id : Nat
  amount : Int
deriving DecidableEq

/-- One element after field validation: the resolved `Ingredient` row plus
the validated positive amount
(`RecipeIngredientWriteSerializer`, `api/serializers.py:170`). -/
structure IngredientLine where
  ingredient : Ingredient
  amount : Nat
deriving DecidableEq

/-- Errors raised by the write pipeline, one constructor per raise site:
`emptyList` is the DRF `allow_empty=False` list error, `invalidPk` the
`PrimaryKeyRelatedField` does-not-exist error, `amountTooSmall` /
`cookingTimeTooSmall` the `min_value=1` errors, `fieldRequired` the DRF
required-field error, `emptyIngredients` / `duplicateIngredient` /
`unknownIngredients` the three raises inside `validate_ingredients`
(`api/serializers.py:249`), and `ingredientsRequired` the raise inside
`validate` (`api/serializers.py:284`, message "Это поле обязательно."). -/
inductive WriteError where
  | emptyList
  | invalidPk (id : Nat)
  | amountTooSmall
  | cookingTimeTooSmall
  | fieldRequired
  | emptyIngredients
  | duplicateIngredient
  | unknownIngredients (ids : List Nat)
  | ingredientsRequired
deriving DecidableEq

/-- Per-item deserialization by `RecipeIngredientWriteSerializer`
(`api/serializers.py:170`): `id` is a `PrimaryKeyRelatedField` over
`Ingredient.objects.all()` (unknown pk raises), `amount` an
`IntegerField(min_value=1)`. -/
def resolveLine (s : Store) (raw : RawIngredientLine) :
    Except WriteError IngredientLine :=
  match s.ingredients.find? (fun ing => ing.id = raw.id) with
  | none => .error (.invalidPk raw.id)
  | some ing =>
    if raw.amount < 1 then .error .amountTooSmall
    else .ok ⟨ing, raw.amount.toNat⟩

/-- Item-wise deserialization of the whole list (DRF `ListSerializer`;
DRF collects the per-item errors and raises them together — we keep the
first, which the claims settled here do not distinguish). -/
def resolveEach (s : Store) : List RawIngredientLine → Except WriteError (List IngredientLine)
  | [] => .ok []
  | raw :: rest =>
    match resolveLine s raw with
    | .error e => .error e
    | .ok line =>
      match resolveEach s rest with
      | .error e => .error e
      | .ok lines => .ok (line :: lines)

/-- The `missing_ids` computation of `validate_ingredients`
(`api/serializers.py:262-265`): `set(ingredient_ids) - set(existing_ids)`
where `existing_ids` filters the store by the submitted ids; the set
difference is modelled as `dedup`/`filter`. -/
def missingIds (s : Store) (ingredient_ids : List Nat) : List Nat :=
  ingredient_ids.dedup.filter (fun i =>
    i ∉ (s.ingredients.filter (fun ing => ing.id ∈ ingredient_ids)).map
      (fun ing => ing.id))

/-- `api/serializers.py:249 RecipeWriteSerializer.validate_ingredients`,
run on the already-resolved items: empty check, duplicate-id check via
`len(ids) != len(set(ids))`, then the missing-ids check.  The empty and
missing branches are unreachable through the field layer but are embedded
as written. -/
def validate_ingredients (s : Store) (lines : List IngredientLine) :
    Except WriteError (List IngredientLine) :=
  if lines = [] then .error .emptyIngredients
  else if (lines.map (fun l => l.ingredient.id)).length
      ≠ (lines.map (fun l => l.ingredient.id)).dedup.length then
    .error .duplicateIngredient
  else if missingIds s (lines.map (fun l => l.ingredient.id)) ≠ [] then
    .error (.unknownIngredients (missingIds s (lines.map (fun l => l.ingredient.id))))
  else .ok lines

/-- Full validation of the `ingredients` field: the `ListSerializer` with
`allow_empty=False` (empty check, then per-item deserialization), then the
serializer's `validate_ingredients` hook. -/
def ingredientsFieldValidation (s : Store) (raws : List RawIngredientLine) :
    Except WriteError (List IngredientLine) :=
  if raws = [] then .error .emptyList
  else
    match resolveEach s raws with
    | .error e => .error e
    | .ok lines => validate_ingredients s lines

/-- HTTP method of the write request; PATCH is DRF's partial update. -/
inductive Method where
  | POST
  | PUT
  | PATCH
deriving DecidableEq

/-- The submitted payload (`initial_data`): which of the writable
`Meta.fields` of `RecipeWriteSerializer` (`api/serializers.py:239`) are
present, and their raw values.  `author` is not a writable field. -/
structure RawRecipeData where
  ingredients : Option (List RawIngredientLine)
  name : Option String
  text : Option String
  image : Option String
  cooking_time : Option Int
deriving DecidableEq

/-- `validated_data` after a successful `run_validation`. -/
structure ValidatedRecipeData where
  ingredients : Option (List IngredientLine)
  name : Option String
  text : Option String
  image : Option String
  cooking_time : Option Nat
deriving DecidableEq

/-- The `ingredients` entry of `to_internal_value`: required unless the
request is a partial update (PATCH). -/
def validateIngredientsOpt (s : Store) (m : Method) (raw : Option (List RawIngredientLine)) :
    Except WriteError (Option (List IngredientLine)) :=
  match raw with
  | none => if m = .PATCH then .ok none else .error .fieldRequired
  | some raws =>
    match ingredientsFieldValidation s raws with
    | .error e => .error e
    | .ok lines => .ok (some lines)

/-- A string-valued model field in `to_internal_value` (blank/length
checks of `CharField`/the image field are elided — no settled claim
depends on them). -/
def validateScalarStr (m : Method) (v : Option String) :
    Except WriteError (Option String) :=
  match v with
  | none => if m = .PATCH then .ok none else .error .fieldRequired
  | some str => .ok (some str)

/-- `cooking_time = serializers.IntegerField(min_value=1)`
(`api/serializers.py:237`). -/
def validateCookingTime (m : Method) (v : Option Int) :
    Except WriteError (Option Nat) :=
  match v with
  | none => if m = .PATCH then .ok none else .error .fieldRequired
  | some n => if n < 1 then .error .cookingTimeTooSmall else .ok (some n.toNat)

/-- `Serializer.run_validation`: `to_internal_value` over the declared
fields in `Meta.fields` order (ingredients, image, name, text,
cooking_time), then the serializer-level `validate`
(`api/serializers.py:284`), which on PATCH/PUT demands that `ingredients`
be present in `initial_data`. -/
def run_validation (s : Store) (m : Method) (raw : RawRecipeData) :
    Except WriteError ValidatedRecipeData :=
  (validateIngredientsOpt s m raw.ingredients).bind fun ings =>
  (validateScalarStr m raw.image).bind fun image =>
  (validateScalarStr m raw.name).bind fun name =>
  (validateScalarStr m raw.text).bind fun text =>
  (validateCookingTime m raw.cooking_time).bind fun ct =>
  if (m = .PATCH ∨ m = .PUT) ∧ raw.ingredients = none then
    .error .ingredientsRequired
  else
    .ok { ingredients := ings, name := name, text := text,
          image := image, cooking_time := ct }

/-- `ModelSerializer.update`'s scalar part (`super().update` at
`api/serializers.py:307`): set each validated scalar attribute; absent
fields keep their stored value.  `author` is not among the writable
fields, so it cannot appear here. -/
def applyScalars (r : Recipe) (vd : ValidatedRecipeData) : Recipe :=
  { r with
    name := vd.name.getD r.name
    text := vd.text.getD r.text
    image := vd.image.getD r.image
    cooking_time := vd.cooking_time.getD r.cooking_time }

/-- `api/serializers.py:303 RecipeWriteSerializer.update`: pop
`ingredients` from `validated_data`, apply the scalar update, and when an
ingredient list was supplied, `instance.ingredients.clear()` (delete every
`RecipeIngredient` row of this recipe) followed by `_create_ingredients`
(bulk-insert the new rows).  All inside one transaction. -/
def serializer_update (s : Store) (recipeId : Nat) (vd : ValidatedRecipeData) : Store :=
  let recipes := s.recipes.map (fun r => if r.id = recipeId then applyScalars r vd else r)
  match vd.ingredients with
  | none => { s with recipes := recipes }
  | some lines =>
    { s with
      recipes := recipes
      recipe_ingredients :=
        (s.recipe_ingredients.filter (fun ri => ri.recipe ≠ recipeId)) ++
        lines.map (fun l => ⟨recipeId, l.ingredient.id, l.amount⟩) }

/-- `api/serializers.py:293 RecipeWriteSerializer.create` combined with
`api/views.py:58 perform_create`: the new recipe's `author` is
`request.user`, never a payload value; `_create_ingredients` inserts the
junction rows.  `newId` stands for the id the database assigns. -/
def serializer_create (s : Store) (requestUser newId : Nat) (vd : ValidatedRecipeData) :
    Store × Recipe :=
  let recipe : Recipe :=
    { id := newId, author := requestUser,
      name := vd.name.getD "", text := vd.text.getD "",
      image := vd.image.getD "", cooking_time := vd.cooking_time.getD 0 }
  ({ s with
      recipes := s.recipes ++ [recipe]
      recipe_ingredients := s.recipe_ingredients ++
        (vd.ingredients.getD []).map (fun l => ⟨newId, l.ingredient.id, l.amount⟩) },
   recipe)

/-- A whole update request through the serializer: validation, then the
state change (an invalid payload leaves the store untouched — the
transaction never starts). -/
def updateRecipe (s : Store) (m : Method) (recipeId : Nat) (raw : RawRecipeData) :
    Except WriteError Store :=
  match run_validation s m raw with
  | .error e => .error e
  | .ok vd => .ok (serializer_update s recipeId vd)

/-! ### Subscriptions listing (`api/serializers.py:118 get_recipes`) -/

/-- Python `int(str)` on a query-parameter string: optional surrounding
whitespace, optional sign, a non-empty digit run (digit-group underscores
are elided — they do not affect the settled claims).  `none` models
`int()` raising `ValueError`. -/
def digitsVal? : List Char → Option Nat
  | [] => none
  | cs =>
    if cs.all (fun c => c.isDigit) then
      some (cs.foldl (fun n c => n * 10 + (c.toNat - 48)) 0)
    else none

/-- Strip leading and trailing whitespace (Python `str.strip()` as done by
`int`). -/
def trimChars (cs : List Char) : List Char :=
  ((cs.dropWhile Char.isWhitespace).reverse.dropWhile Char.isWhitespace).reverse

def pyInt? (str : String) : Option Int :=
  match trimChars str.data with
  | '-' :: rest => (digitsVal? rest).map (fun n => -(n : Int))
  | '+' :: rest => (digitsVal? rest).map (fun n => (n : Int))
  | cs => (digitsVal? cs).map (fun n => (n : Int))

/-- `api/serializers.py:118 UserWithRecipesSerializer.get_recipes`: read
`recipes_limit` from the query string; when present and truthy, try
`queryset[:int(recipes_limit)]` and silently keep the full queryset on any
`ValueError` (a non-integer string, and also a negative slice bound, which
Django's queryset slicing rejects with `ValueError`). -/
def get_recipes (s : Store) (authorId : Nat) (recipes_limit : Option String) :
    List Recipe :=
  let queryset := s.recipes.filter (fun r => r.author = authorId)
  match recipes_limit with
  | none => queryset
  | some lim =>
    if lim ≠ "" then
      match pyInt? lim with
      | some n => if n < 0 then queryset else queryset.take n.toNat
      | none => queryset
    else queryset

/-! ### Claim-side descriptions and database well-formedness -/

/-- The claim's grouping key test: `ri` references an ingredient whose
stored identity (name, measurement_unit) is `key`. -/
def ingredientMatches (s : Store) (key : String × String) (ri : RecipeIngredient) : Bool :=
  s.ingredients.any (fun ing =>
    ing.id = ri.ingredient && ing.name = key.1 && ing.measurement_unit = key.2)

/-- The claim's description of one output line's total: the arithmetic sum
of the `amount` values of exactly the `RecipeIngredient` rows for that
ingredient identity across the cart's recipes, each row counted once. -/
def claimTotal (s : Store) (userId : Nat) (key : String × String) : Nat :=
  ((s.recipe_ingredients.filter (fun ri =>
      (cartRecipes s userId).any (fun r => r.id = ri.recipe) &&
      ingredientMatches s key ri)).map (fun ri => ri.amount)).sum

/-- The uniqueness/FK constraints the database schema enforces
(`models.py` `UniqueConstraint`s, primary keys, and the
`on_delete=CASCADE` foreign keys): primary keys are unique,
`Ingredient(name, measurement_unit)` is unique, `ShoppingCart(user,
recipe)` is unique, and every junction row references a stored
ingredient. -/
def StoreWF (s : Store) : Prop :=
  (s.recipes.map (fun r => r.id)).Nodup ∧
  (s.ingredients.map (fun ing => ing.id)).Nodup ∧
  (s.ingredients.map (fun ing => (ing.name, ing.measurement_unit))).Nodup ∧
  (s.carts.map (fun row => (row.user, row.recipe))).Nodup ∧
  (∀ ri ∈ s.recipe_ingredients, ∃ ing ∈ s.ingredients, ing.id = ri.ingredient)

instance (s : Store) : Decidable (StoreWF s) := by
  unfold StoreWF; infer_instance

/-- Sum of the amounts carried by the joined rows whose group key is
`key` — the reference value a `GROUP BY` accumulator must reach. -/
def sumFor (ls : List AggLine) (key : String × String) : Nat :=
  ((ls.filter (fun line => line.1 = key)).map (fun line => line.2)).sum

/-! ### Concrete stores and payloads used by witnesses and counterexamples -/

/-- The spec's worked example: user 1's cart holds recipe A (ingredient
X=2) and recipe B (ingredient X=3, ingredient Y=1). -/
def sExample : Store :=
  { users := [1]
    ingredients := [⟨1, "X", "g"⟩, ⟨2, "Y", "ml"⟩]
    recipes := [⟨1, 1, "A", "ta", "ia", 10⟩, ⟨2, 1, "B", "tb", "ib", 20⟩]
    recipe_ingredients := [⟨1, 1, 2⟩, ⟨2, 1, 3⟩, ⟨2, 2, 1⟩]
    favorites := []
    carts := [⟨1, 1⟩, ⟨1, 2⟩]
    subscriptions := [] }

/-- A store where user 1 already favorited/carted recipe 1 and is already
subscribed to user 2. -/
def sRelations : Store :=
  { users := [1, 2]
    ingredients := [⟨1, "X", "g"⟩]
    recipes := [⟨1, 2, "A", "ta", "ia", 10⟩]
    recipe_ingredients := [⟨1, 1, 2⟩]
    favorites := [⟨1, 1⟩]
    carts := [⟨1, 1⟩]
    subscriptions := [⟨1, 2⟩] }

/-- A store holding a (5, 5) subscription row, to exhibit that the
self-check fires before the duplicate check. -/
def sSelfSub : Store :=
  { users := [5], ingredients := [], recipes := [], recipe_ingredients := []
    favorites := [], carts := [], subscriptions := [⟨5, 5⟩] }

def emptyStore : Store :=
  { users := [], ingredients := [], recipes := [], recipe_ingredients := []
    favorites := [], carts := [], subscriptions := [] }

/-- A PATCH payload that touches only the name and omits `ingredients`. -/
def rawPatchNoIngredients : RawRecipeData :=
  { ingredients := none, name := some "updated", text := none,
    image := none, cooking_time := none }

/-- A PATCH payload replacing recipe 1's ingredient list with Y=4. -/
def rawPatchNewIngredients : RawRecipeData :=
  { ingredients := some [⟨2, 4⟩], name := none, text := none,
    image := none, cooking_time := none }

/-- `sExample` after `updateRecipe sExample .PATCH 1
rawPatchNewIngredients`: recipe 1's junction rows replaced by Y=4. -/
def sExampleAfterUpdate : Store :=
  { sExample with recipe_ingredients := [⟨2, 1, 3⟩, ⟨2, 2, 1⟩, ⟨1, 2, 4⟩] }

/-!
## Verification

Helper lemmas, then one theorem per settled claim (with a witness
instantiation when the theorem carries hypotheses).
-/

theorem charListLe_total : ∀ as bs, charListLe as bs = true ∨ charListLe bs as = true
  | [], _ => .inl rfl
  | _ :: _, [] => .inr rfl
  | a :: as, b :: bs => by
    simp only [charListLe, Bool.or_eq_true, Bool.and_eq_true, decide_eq_true_eq]
    rcases charListLe_total as bs with h | h
    · rcases Nat.lt_trichotomy a.toNat b.toNat with hl | he | hg
      · exact .inl (.inl hl)
      · exact .inl (.inr ⟨he, h⟩)
      · exact .inr (.inl hg)
    · rcases Nat.lt_trichotomy a.toNat b.toNat with hl | he | hg
      · exact .inl (.inl hl)
      · exact .inr (.inr ⟨he.symm, h⟩)
      · exact .inr (.inl hg)

theorem charListLe_trans : ∀ as bs cs, charListLe as bs = true → charListLe bs cs = true →
    charListLe as cs = true
  | [], _, _ => fun _ _ => rfl
  | _ :: _, [], _ => fun h _ => by simp [charListLe] at h
  | _ :: _, _ :: _, [] => fun _ h => by simp [charListLe] at h
  | a :: as, b :: bs, c :: cs => fun h1 h2 => by
    simp only [charListLe, Bool.or_eq_true, Bool.and_eq_true, decide_eq_true_eq] at h1 h2 ⊢
    rcases h1 with h1 | ⟨h1e, h1r⟩ <;> rcases h2 with h2 | ⟨h2e, h2r⟩
    · exact .inl (by omega)
    · exact .inl (by omega)
    · exact .inl (by omega)
    · exact .inr ⟨by omega, charListLe_trans as bs cs h1r h2r⟩

instance : IsTotal AggLine lineLe := ⟨fun a b => charListLe_total a.1.1.data b.1.1.data⟩

instance : IsTrans AggLine lineLe :=
  ⟨fun _ _ _ hab hbc => charListLe_trans _ _ _ hab hbc⟩

/-- C6: for every user whose shopping cart contains zero recipes, the
shopping-list export fails with the empty-cart validation error
("Список покупок пуст") instead of returning an empty successful
result. -/
theorem C6_empty_cart_export_fails (s : Store) (u : Nat)
    (h : ∀ row ∈ s.carts, row.user ≠ u) :
    download_shopping_cart s u = .error .emptyCart := by
  have hcr : cartRecipes s u = [] := by
    refine List.filter_eq_nil_iff.mpr (fun r _hr => ?_)
    simp only [inUserCart, List.any_eq_true, Bool.and_eq_true, decide_eq_true_eq, not_exists]
    rintro row ⟨hrow, hu, _⟩
    exact h row hrow hu
  simp [download_shopping_cart, hcr]

theorem C6_witness : download_shopping_cart sExample 2 = .error .emptyCart :=
  C6_empty_cart_export_fails sExample 2 (by decide)

/-- C8 counterexample: in the code the target-existence check
(`get_object_or_404(User, id=id)`, `api/views.py:284`) runs before the
self-subscription check (`api/views.py:288`), so a self-subscribe request
naming an id with no user row fails with 404, not with the
self-subscription error the claim's ordering demands. -/
theorem C8_counterexample :
    subscribePost emptyStore 5 5 = .error .http404 ∧
    ApiError.http404 ≠ ApiError.selfSubscription := by
  constructor
  · rfl
  · intro h; cases h

/-- C8 amended: the self-check runs after the target-existence check but
before the duplicate-relation check: whenever the target id equals the
requesting user's id and that user exists in the store, the request fails
with the self-subscription error — regardless of whether a duplicate
subscription row is present. -/
theorem C8_self_subscribe_rejected (s : Store) (u : Nat) (hu : u ∈ s.users) :
    subscribePost s u u = .error .selfSubscription := by
  simp [subscribePost, hu]

/-- The duplicate (5,5) row in `sSelfSub` shows the self-check wins over
the duplicate check. -/
theorem C8_self_subscribe_rejected_witness :
    subscribePost sSelfSub 5 5 = .error .selfSubscription :=
  C8_self_subscribe_rejected sSelfSub 5 (by decide)

/-- C9: a recipe update never changes any recipe's author (author is not
among the writable `Meta.fields`), and a create stores the requesting
user as author no matter what the payload contained. -/
theorem C9_author_frame (s : Store) (rid : Nat) (vd vd2 : ValidatedRecipeData)
    (u nid : Nat) :
    ((serializer_update s rid vd).recipes.map (fun r => (r.id, r.author)))
      = s.recipes.map (fun r => (r.id, r.author)) ∧
    (serializer_create s u nid vd2).2.author = u := by
  refine ⟨?_, rfl⟩
  have hmap : ∀ r ∈ s.recipes,
      ((fun r => (r.id, r.author)) (if r.id = rid then applyScalars r vd else r))
        = (r.id, r.author) := by
    intro r _hr
    by_cases h : r.id = rid <;> simp [h, applyScalars]
  cases hvd : vd.ingredients <;>
    simp only [serializer_update, hvd, List.map_map, Function.comp_def] <;>
    exact List.map_congr_left hmap

/-- C10: a `recipes_limit` query parameter that `int()` cannot parse is
silently ignored: the author's full recipe list is returned and no error
is raised (`except ValueError: pass`). -/
theorem C10_invalid_limit_ignored (s : Store) (aid : Nat) (lim : String)
    (h : pyInt? lim = none) :
    get_recipes s aid (some lim) = s.recipes.filter (fun r => r.author = aid) := by
  by_cases he : lim = ""
  · simp [get_recipes, he]
  · simp [get_recipes, he, h]

theorem C10_witness :
    get_recipes sExample 1 (some "abc")
      = sExample.recipes.filter (fun r => r.author = 1) :=
  C10_invalid_limit_ignored sExample 1 "abc" (by decide)

theorem relationRows_set (s : Store) (k : RelationKind) (rows : List UserRecipeRow) :
    relationRows (setRelationRows s k rows) k = rows := by
  cases k <;> rfl

theorem setRelationRows_recipes (s : Store) (k : RelationKind) (rows : List UserRecipeRow) :
    (setRelationRows s k rows).recipes = s.recipes := by
  cases k <;> rfl

theorem setRelationRows_users (s : Store) (k : RelationKind) (rows : List UserRecipeRow) :
    (setRelationRows s k rows).users = s.users := by
  cases k <;> rfl

theorem mem_eraseP_of_mem_of_not {α} {p : α → Bool} {l : List α} {a : α}
    (ha : a ∈ l) (hpa : p a = false) : a ∈ l.eraseP p := by
  induction l with
  | nil => cases ha
  | cons b t ih =>
    rw [List.eraseP_cons]
    rcases List.mem_cons.mp ha with rfl | ht
    · simp only [hpa, cond_false]
      exact List.mem_cons_self _ _
    · cases hpb : p b
      · simp only [cond_false]
        exact List.mem_cons_of_mem _ (ih ht)
      · simp only [cond_true]
        exact ht

/-- C3: when the (user, target) relation row already exists, a second add
fails with the relation-specific already-exists validation error, and (the
`Except` being an error) no row is inserted and the store is unchanged —
for favorites, carts, and subscriptions alike. -/
theorem C3_duplicate_add_fails (s : Store) (k : RelationKind) (u rid aid : Nat)
    (hrec : ∃ r ∈ s.recipes, r.id = rid)
    (hrow : ∃ row ∈ relationRows s k, row.user = u ∧ row.recipe = rid)
    (haid : aid ∈ s.users) (hne : u ≠ aid)
    (hsub : ∃ row ∈ s.subscriptions, row.user = u ∧ row.author = aid) :
    handleRecipeRelationPost s k u rid = .error (.alreadyInRelation (alreadyMsg k)) ∧
    subscribePost s u aid = .error .alreadySubscribed := by
  constructor
  · obtain ⟨r0, hr0, hid0⟩ := hrec
    have hfind : (s.recipes.find? (fun r => r.id = rid)).isSome := by
      rw [List.find?_isSome]
      exact ⟨r0, hr0, by simp [hid0]⟩
    obtain ⟨r, hr⟩ := Option.isSome_iff_exists.mp hfind
    have hany : (relationRows s k).any (fun row => row.user = u && row.recipe = rid) = true := by
      rw [List.any_eq_true]
      obtain ⟨row, hm, h1, h2⟩ := hrow
      exact ⟨row, hm, by simp [h1, h2]⟩
    simp [handleRecipeRelationPost, hr, hany]
  · have hanys : s.subscriptions.any (fun row => row.user = u && row.author = aid) = true := by
      rw [List.any_eq_true]
      obtain ⟨row, hm, h1, h2⟩ := hsub
      exact ⟨row, hm, by simp [h1, h2]⟩
    simp [subscribePost, haid, hne, hanys]

theorem C3_witness :
    handleRecipeRelationPost sRelations .favorite 1 1
        = .error (.alreadyInRelation (alreadyMsg .favorite)) ∧
    subscribePost sRelations 1 2 = .error .alreadySubscribed :=
  C3_duplicate_add_fails sRelations .favorite 1 1 2
    (by decide) (by decide) (by decide) (by decide) (by decide)

/-- C7: removing a relation that does not exist fails with the
not-in-relation validation error (a different error kind from the
add-side already-exists error); a successful remove deletes exactly one
relation row and leaves the recipe and user tables untouched — for
favorites, carts, and subscriptions alike. -/
theorem C7_remove_relation (s : Store) (k : RelationKind) (u rid aid : Nat)
    (hrec : ∃ r ∈ s.recipes, r.id = rid) (haid : aid ∈ s.users) :
    ((¬ ∃ row ∈ relationRows s k, row.user = u ∧ row.recipe = rid) →
      handleRecipeRelationDelete s k u rid = .error (.notInRelation (notFoundMsg k)) ∧
      ∀ msg, ApiError.notInRelation (notFoundMsg k) ≠ ApiError.alreadyInRelation msg) ∧
    ((∃ row ∈ relationRows s k, row.user = u ∧ row.recipe = rid) →
      ∃ s2, handleRecipeRelationDelete s k u rid = .ok s2 ∧
        (relationRows s2 k).length + 1 = (relationRows s k).length ∧
        (∀ row ∈ relationRows s k, ¬(row.user = u ∧ row.recipe = rid) →
          row ∈ relationRows s2 k) ∧
        s2.recipes = s.recipes ∧ s2.users = s.users) ∧
    ((¬ ∃ row ∈ s.subscriptions, row.user = u ∧ row.author = aid) →
      subscribeDelete s u aid = .error .notSubscribed) ∧
    ((∃ row ∈ s.subscriptions, row.user = u ∧ row.author = aid) →
      ∃ s2, subscribeDelete s u aid = .ok s2 ∧
        s2.subscriptions.length + 1 = s.subscriptions.length ∧
        (∀ row ∈ s.subscriptions, ¬(row.user = u ∧ row.author = aid) →
          row ∈ s2.subscriptions) ∧
        s2.recipes = s.recipes ∧ s2.users = s.users) := by
  obtain ⟨r0, hr0, hid0⟩ := hrec
  have hfind : (s.recipes.find? (fun r => r.id = rid)).isSome := by
    rw [List.find?_isSome]
    exact ⟨r0, hr0, by simp [hid0]⟩
  obtain ⟨r, hr⟩ := Option.isSome_iff_exists.mp hfind
  refine ⟨?_, ?_, ?_, ?_⟩
  · intro habs
    have hnone : (relationRows s k).find?
        (fun row => row.user = u && row.recipe = rid) = none := by
      rw [List.find?_eq_none]
      intro row hm
      simp only [Bool.and_eq_true, decide_eq_true_eq, not_and]
      intro h1 h2
      exact habs ⟨row, hm, h1, h2⟩
    refine ⟨by simp [handleRecipeRelationDelete, hr, hnone], ?_⟩
    intro msg h
    cases h
  · rintro ⟨row, hm, h1, h2⟩
    have hp : (fun row => decide (row.user = u) && decide (row.recipe = rid)) row = true := by
      simp [h1, h2]
    have hsomething : ((relationRows s k).find?
        (fun row => row.user = u && row.recipe = rid)).isSome := by
      rw [List.find?_isSome]
      exact ⟨row, hm, hp⟩
    obtain ⟨row2, hrow2⟩ := Option.isSome_iff_exists.mp hsomething
    refine ⟨setRelationRows s k ((relationRows s k).eraseP
      (fun row => row.user = u && row.recipe = rid)), ?_, ?_, ?_, ?_, ?_⟩
    · simp [handleRecipeRelationDelete, hr, hrow2]
    · rw [relationRows_set]
      exact List.length_eraseP_add_one hm hp
    · intro row3 hm3 hcond3
      rw [relationRows_set]
      refine mem_eraseP_of_mem_of_not hm3 ?_
      by_cases h1 : row3.user = u
      · by_cases h2 : row3.recipe = rid
        · exact absurd ⟨h1, h2⟩ hcond3
        · simp [h1, h2]
      · simp [h1]
    · exact setRelationRows_recipes s k _
    · exact setRelationRows_users s k _
  · intro habs
    have hnone : s.subscriptions.find?
        (fun row => row.user = u && row.author = aid) = none := by
      rw [List.find?_eq_none]
      intro row hm
      simp only [Bool.and_eq_true, decide_eq_true_eq, not_and]
      intro h1 h2
      exact habs ⟨row, hm, h1, h2⟩
    simp [subscribeDelete, haid, hnone]
  · rintro ⟨row, hm, h1, h2⟩
    have hp : (fun row => decide (row.user = u) && decide (row.author = aid)) row = true := by
      simp [h1, h2]
    have hsomething : (s.subscriptions.find?
        (fun row => row.user = u && row.author = aid)).isSome := by
      rw [List.find?_isSome]
      exact ⟨row, hm, hp⟩
    obtain ⟨row2, hrow2⟩ := Option.isSome_iff_exists.mp hsomething
    refine ⟨{ s with subscriptions := (s.subscriptions.eraseP
      (fun row => row.user = u && row.author = aid)) }, ?_, ?_, ?_, rfl, rfl⟩
    · simp [subscribeDelete, haid, hrow2]
    · exact List.length_eraseP_add_one hm hp
    · intro row3 hm3 hcond3
      refine mem_eraseP_of_mem_of_not hm3 ?_
      by_cases h1 : row3.user = u
      · by_cases h2 : row3.author = aid
        · exact absurd ⟨h1, h2⟩ hcond3
        · simp [h1, h2]
      · simp [h1]

theorem C7_witness :
    ((¬ ∃ row ∈ relationRows sRelations .shopping_cart, row.user = 2 ∧ row.recipe = 1) →
      handleRecipeRelationDelete sRelations .shopping_cart 2 1
          = .error (.notInRelation (notFoundMsg .shopping_cart)) ∧
      ∀ msg, ApiError.notInRelation (notFoundMsg .shopping_cart)
          ≠ ApiError.alreadyInRelation msg) ∧
    ((∃ row ∈ relationRows sRelations .shopping_cart, row.user = 2 ∧ row.recipe = 1) →
      ∃ s2, handleRecipeRelationDelete sRelations .shopping_cart 2 1 = .ok s2 ∧
        (relationRows s2 .shopping_cart).length + 1
            = (relationRows sRelations .shopping_cart).length ∧
        (∀ row ∈ relationRows sRelations .shopping_cart,
          ¬(row.user = 2 ∧ row.recipe = 1) → row ∈ relationRows s2 .shopping_cart) ∧
        s2.recipes = sRelations.recipes ∧ s2.users = sRelations.users) ∧
    ((¬ ∃ row ∈ sRelations.subscriptions, row.user = 2 ∧ row.author = 2) →
      subscribeDelete sRelations 2 2 = .error .notSubscribed) ∧
    ((∃ row ∈ sRelations.subscriptions, row.user = 2 ∧ row.author = 2) →
      ∃ s2, subscribeDelete sRelations 2 2 = .ok s2 ∧
        s2.subscriptions.length + 1 = sRelations.subscriptions.length ∧
        (∀ row ∈ sRelations.subscriptions, ¬(row.user = 2 ∧ row.author = 2) →
          row ∈ s2.subscriptions) ∧
        s2.recipes = sRelations.recipes ∧ s2.users = sRelations.users) :=
  C7_remove_relation sRelations .shopping_cart 2 1 2 (by decide) (by decide)

theorem validateScalarStr_patch (v : Option String) :
    validateScalarStr .PATCH v = .ok v := by
  cases v <;> rfl

/-- C5 counterexample: the claim says a partial update without an
ingredient list succeeds touching only scalars, but
`RecipeWriteSerializer.validate` (`api/serializers.py:284`) demands
`ingredients` in `initial_data` for PATCH as well as PUT, so the request
is rejected and never reaches the update. -/
theorem C5_counterexample :
    updateRecipe sExample .PATCH 1 rawPatchNoIngredients
      = .error .ingredientsRequired := by
  decide

/-- C5 amended: a partial update whose payload omits the ingredient list
(and is otherwise valid) is rejected with the ingredients-required
validation error ("Это поле обязательно."), leaving the store untouched;
the code does not distinguish PATCH from PUT here. -/
theorem C5_patch_without_ingredients_rejected (s : Store) (rid : Nat)
    (raw : RawRecipeData) (hing : raw.ingredients = none)
    (hct : ∀ n, raw.cooking_time = some n → 1 ≤ n) :
    updateRecipe s .PATCH rid raw = .error .ingredientsRequired := by
  unfold updateRecipe run_validation
  rw [hing]
  have hctv : validateCookingTime .PATCH raw.cooking_time
      = .ok (raw.cooking_time.map Int.toNat) := by
    cases hc : raw.cooking_time with
    | none => rfl
    | some n =>
      have := hct n hc
      simp [validateCookingTime, show ¬(n < 1) by omega]
  simp [validateIngredientsOpt, validateScalarStr_patch, hctv, Except.bind, hing]

theorem C5_witness :
    updateRecipe sExample .PATCH 2 rawPatchNoIngredients = .error .ingredientsRequired :=
  C5_patch_without_ingredients_rejected sExample 2 rawPatchNoIngredients rfl
    (fun _ h => Option.noConfusion h)

theorem except_bind_ok {ε α β : Type} {x : Except ε α} {f : α → Except ε β} {b : β} :
    x.bind f = .ok b ↔ ∃ a, x = .ok a ∧ f a = .ok b := by
  cases x <;> simp [Except.bind]

theorem resolveLine_ok {s : Store} {raw : RawIngredientLine} {line : IngredientLine}
    (h : resolveLine s raw = .ok line) :
    line.ingredient.id = raw.id ∧ line.amount = raw.amount.toNat ∧
    line.ingredient ∈ s.ingredients ∧ 1 ≤ raw.amount := by
  unfold resolveLine at h
  cases hf : s.ingredients.find? (fun ing => ing.id = raw.id) with
  | none => simp [hf] at h
  | some ing =>
    simp only [hf] at h
    by_cases hlt : raw.amount < 1
    · simp [hlt] at h
    · rw [if_neg hlt] at h
      simp only [Except.ok.injEq] at h
      subst h
      have hid : ing.id = raw.id := by simpa using List.find?_some hf
      exact ⟨hid, rfl, List.mem_of_find?_eq_some hf, by omega⟩

theorem resolveEach_ok {s : Store} {raws : List RawIngredientLine}
    {lines : List IngredientLine} (h : resolveEach s raws = .ok lines) :
    lines.map (fun l => (l.ingredient.id, l.amount))
        = raws.map (fun w => (w.id, w.amount.toNat)) ∧
    ∀ l ∈ lines, l.ingredient ∈ s.ingredients := by
  induction raws generalizing lines with
  | nil =>
    simp only [resolveEach, Except.ok.injEq] at h
    subst h; simp
  | cons raw rest ih =>
    unfold resolveEach at h
    cases h1 : resolveLine s raw with
    | error e => simp [h1] at h
    | ok line =>
      simp only [h1] at h
      cases h2 : resolveEach s rest with
      | error e => simp [h2] at h
      | ok lines2 =>
        simp only [h2, Except.ok.injEq] at h
        subst h
        obtain ⟨hmap, hmem⟩ := ih h2
        obtain ⟨hid, hamt, hmem1, _⟩ := resolveLine_ok h1
        refine ⟨by simp [hid, hamt, hmap], ?_⟩
        intro l hl
        rcases List.mem_cons.mp hl with rfl | hl2
        · exact hmem1
        · exact hmem l hl2

theorem validate_ingredients_ok {s : Store} {lines lines2 : List IngredientLine}
    (h : validate_ingredients s lines = .ok lines2) :
    lines2 = lines ∧ (lines.map (fun l => l.ingredient.id)).Nodup := by
  unfold validate_ingredients at h
  by_cases h0 : lines = []
  · simp [h0] at h
  · by_cases hdup : lines.length = (lines.map (fun l => l.ingredient.id)).dedup.length
    · by_cases hmiss : missingIds s (lines.map (fun l => l.ingredient.id)) = []
      · simp [h0, hdup, hmiss] at h
        refine ⟨h.symm, ?_⟩
        have hsub := List.dedup_sublist (l := lines.map (fun l => l.ingredient.id))
        refine List.dedup_eq_self.mp (hsub.eq_of_length ?_)
        have hlm : (lines.map (fun l => l.ingredient.id)).length = lines.length :=
          List.length_map _ _
        omega
      · simp [h0, hdup, hmiss] at h
    · simp [h0, hdup] at h

/-- C2: when an update supplies an ingredient list (and succeeds), the
recipe's junction rows afterwards are exactly the submitted list: same
(ingredient, amount) pairs in order, same count, pairwise-distinct
ingredient ids, and nothing of the old set that the new list omits
survives. -/
theorem C2_update_replaces_ingredients (s s2 : Store) (m : Method) (rid : Nat)
    (raw : RawRecipeData) (raws : List RawIngredientLine)
    (hraw : raw.ingredients = some raws)
    (hok : updateRecipe s m rid raw = .ok s2) :
    ((s2.recipe_ingredients.filter (fun ri => ri.recipe = rid)).map
        (fun ri => (ri.ingredient, ri.amount)))
      = raws.map (fun w => (w.id, w.amount.toNat)) ∧
    (s2.recipe_ingredients.filter (fun ri => ri.recipe = rid)).length = raws.length ∧
    ((s2.recipe_ingredients.filter (fun ri => ri.recipe = rid)).map
        (fun ri => ri.ingredient)).Nodup ∧
    (∀ ri ∈ s.recipe_ingredients, ri.recipe = rid →
      ri.ingredient ∉ raws.map (fun w => w.id) →
      ∀ ri2 ∈ s2.recipe_ingredients, ri2.recipe = rid →
        ri2.ingredient ≠ ri.ingredient) := by
  unfold updateRecipe at hok
  cases hv : run_validation s m raw with
  | error e => simp [hv] at hok
  | ok vd =>
    simp only [hv, Except.ok.injEq] at hok
    subst hok
    unfold run_validation at hv
    rw [hraw] at hv
    rw [except_bind_ok] at hv
    obtain ⟨ings, hin, hv⟩ := hv
    cases hif : ingredientsFieldValidation s raws with
    | error e => simp [validateIngredientsOpt, hif] at hin
    | ok lines0 =>
      simp only [validateIngredientsOpt, hif, Except.ok.injEq] at hin
      subst hin
      have hnodup : (lines0.map (fun l => l.ingredient.id)).Nodup := by
        unfold ingredientsFieldValidation at hif
        by_cases hraws0 : raws = []
        · simp [hraws0] at hif
        · rw [if_neg hraws0] at hif
          cases hre : resolveEach s raws with
          | error e => simp [hre] at hif
          | ok lines1 =>
            simp only [hre] at hif
            obtain ⟨hl0, hnd⟩ := validate_ingredients_ok hif
            subst hl0
            exact hnd
      have hmap : lines0.map (fun l => (l.ingredient.id, l.amount))
          = raws.map (fun w => (w.id, w.amount.toNat)) := by
        unfold ingredientsFieldValidation at hif
        by_cases hraws0 : raws = []
        · simp [hraws0] at hif
        · rw [if_neg hraws0] at hif
          cases hre : resolveEach s raws with
          | error e => simp [hre] at hif
          | ok lines1 =>
            simp only [hre] at hif
            obtain ⟨hl0, _⟩ := validate_ingredients_ok hif
            subst hl0
            exact (resolveEach_ok hre).1
      rw [except_bind_ok] at hv
      obtain ⟨img, _, hv⟩ := hv
      rw [except_bind_ok] at hv
      obtain ⟨nm, _, hv⟩ := hv
      rw [except_bind_ok] at hv
      obtain ⟨tx, _, hv⟩ := hv
      rw [except_bind_ok] at hv
      obtain ⟨ct, _, hv⟩ := hv
      rw [if_neg (by simp)] at hv
      simp only [Except.ok.injEq] at hv
      subst hv
      have hfilter : (((s.recipe_ingredients.filter (fun ri => ri.recipe ≠ rid))
            ++ lines0.map (fun l =>
              ({ recipe := rid, ingredient := l.ingredient.id, amount := l.amount }
                : RecipeIngredient))).filter
              (fun ri => ri.recipe = rid))
          = lines0.map (fun l =>
              ({ recipe := rid, ingredient := l.ingredient.id, amount := l.amount }
                : RecipeIngredient)) := by
        rw [List.filter_append]
        have h1 : (s.recipe_ingredients.filter (fun ri => ri.recipe ≠ rid)).filter
            (fun ri => ri.recipe = rid) = [] := by
          rw [List.filter_eq_nil_iff]
          intro ri hm
          have h2 := (List.mem_filter.mp hm).2
          simp only [ne_eq, decide_not, Bool.not_eq_true', decide_eq_false_iff_not] at h2
          simp [h2]
        have h2 : ((lines0.map (fun l =>
              ({ recipe := rid, ingredient := l.ingredient.id, amount := l.amount }
                : RecipeIngredient))).filter
            (fun ri => ri.recipe = rid))
            = lines0.map (fun l =>
              ({ recipe := rid, ingredient := l.ingredient.id, amount := l.amount }
                : RecipeIngredient)) := by
          rw [List.filter_eq_self]
          intro ri hm
          obtain ⟨l, _, rfl⟩ := List.mem_map.mp hm
          simp
        rw [h1, h2, List.nil_append]
      have hrows : ((serializer_update s rid
            { ingredients := some lines0, name := nm, text := tx,
              image := img, cooking_time := ct }).recipe_ingredients.filter
            (fun ri => ri.recipe = rid))
          = lines0.map (fun l =>
              ({ recipe := rid, ingredient := l.ingredient.id, amount := l.amount }
                : RecipeIngredient)) := by
        simp only [serializer_update]
        exact hfilter
      have hids : lines0.map (fun l => l.ingredient.id) = raws.map (fun w => w.id) := by
        have h3 := congrArg (List.map Prod.fst) hmap
        simpa [List.map_map, Function.comp_def] using h3
      refine ⟨?_, ?_, ?_, ?_⟩
      · rw [hrows, List.map_map]
        simpa [Function.comp_def] using hmap
      · rw [hrows, List.length_map]
        have h3 := congrArg List.length hids
        simpa using h3
      · rw [hrows, List.map_map]
        simpa [Function.comp_def] using hnodup
      · intro ri _hmem hrid hnot ri2 hm2 hrid2
        have hm2b : ri2 ∈ (serializer_update s rid
            { ingredients := some lines0, name := nm, text := tx,
              image := img, cooking_time := ct }).recipe_ingredients.filter
              (fun ri => ri.recipe = rid) :=
          List.mem_filter.mpr ⟨hm2, by simp [hrid2]⟩
        rw [hrows] at hm2b
        obtain ⟨l, hl, rfl⟩ := List.mem_map.mp hm2b
        intro heq
        apply hnot
        rw [← hids]
        simp only [List.mem_map]
        exact ⟨l, hl, heq⟩

theorem C2_witness :
    ((sExampleAfterUpdate.recipe_ingredients.filter (fun ri => ri.recipe = 1)).map
        (fun ri => (ri.ingredient, ri.amount)))
      = [(⟨2, 4⟩ : RawIngredientLine)].map (fun w => (w.id, w.amount.toNat)) ∧
    (sExampleAfterUpdate.recipe_ingredients.filter (fun ri => ri.recipe = 1)).length
      = [(⟨2, 4⟩ : RawIngredientLine)].length ∧
    ((sExampleAfterUpdate.recipe_ingredients.filter (fun ri => ri.recipe = 1)).map
        (fun ri => ri.ingredient)).Nodup ∧
    (∀ ri ∈ sExample.recipe_ingredients, ri.recipe = 1 →
      ri.ingredient ∉ [(⟨2, 4⟩ : RawIngredientLine)].map (fun w => w.id) →
      ∀ ri2 ∈ sExampleAfterUpdate.recipe_ingredients, ri2.recipe = 1 →
        ri2.ingredient ≠ ri.ingredient) :=
  C2_update_replaces_ingredients sExample sExampleAfterUpdate .PATCH 1
    rawPatchNewIngredients [⟨2, 4⟩] rfl (by decide)

theorem resolveEach_unknown {s : Store} {raws : List RawIngredientLine}
    (hamt : ∀ raw ∈ raws, 1 ≤ raw.amount)
    (hunk : ∃ raw ∈ raws, ∀ ing ∈ s.ingredients, ing.id ≠ raw.id) :
    ∃ j, resolveEach s raws = .error (.invalidPk j) ∧
      ∀ ing ∈ s.ingredients, ing.id ≠ j := by
  induction raws with
  | nil => obtain ⟨raw, h, _⟩ := hunk; cases h
  | cons raw rest ih =>
    cases hf : s.ingredients.find? (fun ing => ing.id = raw.id) with
    | none =>
      refine ⟨raw.id, ?_, ?_⟩
      · simp [resolveEach, resolveLine, hf]
      · intro ing hm
        have h2 := List.find?_eq_none.mp hf ing hm
        simpa using h2
    | some ing =>
      have hid : ing.id = raw.id := by simpa using List.find?_some hf
      have hmem : ing ∈ s.ingredients := List.mem_of_find?_eq_some hf
      have hraw1 : 1 ≤ raw.amount := hamt raw (List.mem_cons_self _ _)
      have hunk2 : ∃ w ∈ rest, ∀ ing2 ∈ s.ingredients, ing2.id ≠ w.id := by
        obtain ⟨w, hw, hwp⟩ := hunk
        rcases List.mem_cons.mp hw with rfl | hw2
        · exact absurd hid (hwp ing hmem)
        · exact ⟨w, hw2, hwp⟩
      obtain ⟨j, hj, hjp⟩ := ih (fun w hw => hamt w (List.mem_cons_of_mem _ hw)) hunk2
      refine ⟨j, ?_, hjp⟩
      simp [resolveEach, resolveLine, hf, show ¬(raw.amount < 1) by omega, hj]

theorem resolveEach_ok_of_all {s : Store} {raws : List RawIngredientLine}
    (h : ∀ raw ∈ raws, (∃ ing ∈ s.ingredients, ing.id = raw.id) ∧ 1 ≤ raw.amount) :
    ∃ lines, resolveEach s raws = .ok lines := by
  induction raws with
  | nil => exact ⟨[], rfl⟩
  | cons raw rest ih =>
    obtain ⟨⟨ing0, hm0, hid0⟩, hamt⟩ := h raw (List.mem_cons_self _ _)
    have hsome : (s.ingredients.find? (fun ing => ing.id = raw.id)).isSome := by
      rw [List.find?_isSome]
      exact ⟨ing0, hm0, by simp [hid0]⟩
    obtain ⟨ing, hing⟩ := Option.isSome_iff_exists.mp hsome
    obtain ⟨lines, hlines⟩ := ih (fun w hw => h w (List.mem_cons_of_mem _ hw))
    refine ⟨⟨ing, raw.amount.toNat⟩ :: lines, ?_⟩
    simp [resolveEach, resolveLine, hing, show ¬(raw.amount < 1) by omega, hlines]

/-- C4 counterexample: the submission [{id 7, amount 2}, {id 7, amount 3}]
both duplicates id 7 and references an id unknown to the store; the
claim's ordering demands the duplicate error, but the
`PrimaryKeyRelatedField` resolution of each item runs during field
deserialization — before `validate_ingredients` — and fails first with
the does-not-exist error. -/
theorem C4_counterexample :
    ingredientsFieldValidation sExample [⟨7, 2⟩, ⟨7, 3⟩] = .error (.invalidPk 7) ∧
    WriteError.invalidPk 7 ≠ WriteError.duplicateIngredient := by
  refine ⟨by decide, ?_⟩
  intro h
  cases h

/-- C4 amended: validation order is: empty list first (`allow_empty=False`);
then each submitted id is resolved against stored Ingredients (an unknown
id fails with the does-not-exist error naming it — even if the list also
contains duplicates); only then does `validate_ingredients` reject
duplicate ids in an all-resolvable list. -/
theorem C4_validation_order (s : Store) (raws : List RawIngredientLine) :
    (raws = [] → ingredientsFieldValidation s raws = .error .emptyList) ∧
    ((∀ raw ∈ raws, 1 ≤ raw.amount) →
      (∃ raw ∈ raws, ∀ ing ∈ s.ingredients, ing.id ≠ raw.id) →
      ∃ j, ingredientsFieldValidation s raws = .error (.invalidPk j) ∧
        ∀ ing ∈ s.ingredients, ing.id ≠ j) ∧
    (raws ≠ [] →
      (∀ raw ∈ raws, (∃ ing ∈ s.ingredients, ing.id = raw.id) ∧ 1 ≤ raw.amount) →
      ¬(raws.map (fun w => w.id)).Nodup →
      ingredientsFieldValidation s raws = .error .duplicateIngredient) := by
  refine ⟨?_, ?_, ?_⟩
  · intro h
    simp [ingredientsFieldValidation, h]
  · intro hamt hunk
    obtain ⟨j, hj, hjp⟩ := resolveEach_unknown hamt hunk
    have hne : raws ≠ [] := by
      rintro rfl
      obtain ⟨w, hw, _⟩ := hunk
      cases hw
    exact ⟨j, by simp [ingredientsFieldValidation, hne, hj], hjp⟩
  · intro hne hall hdup
    obtain ⟨lines, hlines⟩ := resolveEach_ok_of_all hall
    obtain ⟨hmap, _⟩ := resolveEach_ok hlines
    have hids : lines.map (fun l => l.ingredient.id) = raws.map (fun w => w.id) := by
      have h3 := congrArg (List.map Prod.fst) hmap
      simpa [List.map_map, Function.comp_def] using h3
    have hlen : lines.length = raws.length := by
      have h3 := congrArg List.length hids
      simpa using h3
    have hlines_ne : lines ≠ [] := by
      rintro rfl
      simp only [List.length_nil] at hlen
      exact hne (List.eq_nil_of_length_eq_zero hlen.symm)
    have hdup2 : ¬(lines.map (fun l => l.ingredient.id)).Nodup := by
      rw [hids]
      exact hdup
    have hlendiff : lines.length ≠ (lines.map (fun l => l.ingredient.id)).dedup.length := by
      intro heq
      have hsub := List.dedup_sublist (l := lines.map (fun l => l.ingredient.id))
      have hlm : (lines.map (fun l => l.ingredient.id)).length = lines.length :=
        List.length_map _ _
      exact hdup2 (List.dedup_eq_self.mp (hsub.eq_of_length (by omega)))
    simp [ingredientsFieldValidation, hne, hlines, validate_ingredients,
      hlines_ne, hlendiff]

theorem C4_validation_order_witness :
    ∃ j, ingredientsFieldValidation sExample [⟨7, 2⟩, ⟨7, 3⟩]
        = .error (.invalidPk j) ∧
      ∀ ing ∈ sExample.ingredients, ing.id ≠ j :=
  (C4_validation_order sExample [⟨7, 2⟩, ⟨7, 3⟩]).2.1 (by decide) (by decide)

theorem sumFor_nil (key : String × String) : sumFor [] key = 0 := rfl

theorem sumFor_cons (p : AggLine) (ls : List AggLine) (key : String × String) :
    sumFor (p :: ls) key = (if p.1 = key then p.2 else 0) + sumFor ls key := by
  by_cases h : p.1 = key <;> simp [sumFor, List.filter_cons, h]

theorem sumFor_addToGroup (g : List AggLine) (k : String × String) (a : Nat)
    (key : String × String) :
    sumFor (addToGroup g k a) key = sumFor g key + (if k = key then a else 0) := by
  induction g with
  | nil =>
    rw [show addToGroup [] k a = [(k, a)] from rfl, sumFor_cons]
    simp [sumFor]
  | cons p rest ih =>
    obtain ⟨k2, t⟩ := p
    by_cases h1 : k2 = k
    · rw [show addToGroup ((k2, t) :: rest) k a = (k2, t + a) :: rest from by
        simp [addToGroup, h1]]
      rw [sumFor_cons, sumFor_cons]
      subst h1
      by_cases h2 : k2 = key <;> simp [h2] <;> omega
    · rw [show addToGroup ((k2, t) :: rest) k a = (k2, t) :: addToGroup rest k a from by
        simp [addToGroup, h1]]
      rw [sumFor_cons, sumFor_cons, ih]
      omega

theorem sumFor_groupLines (ls : List AggLine) (key : String × String) :
    sumFor (groupLines ls) key = sumFor ls key := by
  induction ls with
  | nil => rfl
  | cons p rest ih =>
    obtain ⟨k, a⟩ := p
    rw [show groupLines ((k, a) :: rest) = addToGroup (groupLines rest) k a from rfl]
    rw [sumFor_addToGroup, ih, sumFor_cons]
    dsimp only
    omega

theorem keys_addToGroup (g : List AggLine) (k : String × String) (a : Nat)
    (key : String × String) :
    key ∈ (addToGroup g k a).map (fun l => l.1) ↔
      key ∈ g.map (fun l => l.1) ∨ key = k := by
  induction g with
  | nil => simp [addToGroup]
  | cons p rest ih =>
    obtain ⟨k2, t⟩ := p
    by_cases h1 : k2 = k
    · rw [show addToGroup ((k2, t) :: rest) k a = (k2, t + a) :: rest from by
        simp [addToGroup, h1]]
      subst h1
      simp
      tauto
    · rw [show addToGroup ((k2, t) :: rest) k a = (k2, t) :: addToGroup rest k a from by
        simp [addToGroup, h1]]
      simp [ih]
      tauto

theorem keys_nodup_addToGroup (g : List AggLine) (k : String × String) (a : Nat)
    (h : (g.map (fun l => l.1)).Nodup) :
    ((addToGroup g k a).map (fun l => l.1)).Nodup := by
  induction g with
  | nil => simp [addToGroup]
  | cons p rest ih =>
    obtain ⟨k2, t⟩ := p
    simp only [List.map_cons, List.nodup_cons] at h
    by_cases h1 : k2 = k
    · rw [show addToGroup ((k2, t) :: rest) k a = (k2, t + a) :: rest from by
        simp [addToGroup, h1]]
      simp only [List.map_cons, List.nodup_cons]
      exact h
    · rw [show addToGroup ((k2, t) :: rest) k a = (k2, t) :: addToGroup rest k a from by
        simp [addToGroup, h1]]
      simp only [List.map_cons, List.nodup_cons]
      refine ⟨?_, ih h.2⟩
      rw [keys_addToGroup]
      rintro (hmem | rfl)
      · exact h.1 hmem
      · exact h1 rfl

theorem keys_nodup_groupLines (ls : List AggLine) :
    ((groupLines ls).map (fun l => l.1)).Nodup := by
  induction ls with
  | nil => simp [groupLines]
  | cons p rest ih =>
    obtain ⟨k, a⟩ := p
    exact keys_nodup_addToGroup (groupLines rest) k a ih

theorem keys_groupLines (ls : List AggLine) (key : String × String) :
    key ∈ (groupLines ls).map (fun l => l.1) ↔ key ∈ ls.map (fun l => l.1) := by
  induction ls with
  | nil => simp [groupLines]
  | cons p rest ih =>
    obtain ⟨k, a⟩ := p
    rw [show groupLines ((k, a) :: rest) = addToGroup (groupLines rest) k a from rfl]
    rw [keys_addToGroup]
    simp [ih]
    tauto

theorem sumFor_eq_zero_of_not_mem (g : List AggLine) (key : String × String)
    (h : key ∉ g.map (fun l => l.1)) : sumFor g key = 0 := by
  induction g with
  | nil => rfl
  | cons p rest ih =>
    simp only [List.map_cons, List.mem_cons, not_or] at h
    rw [sumFor_cons, if_neg (fun he => h.1 he.symm)]
    simpa using ih h.2

theorem find?_eq_of_nodup_ids {l : List Ingredient}
    (h : (l.map (fun ing => ing.id)).Nodup) {ing : Ingredient} (hm : ing ∈ l)
    {x : Nat} (hid : ing.id = x) :
    l.find? (fun i => i.id = x) = some ing := by
  induction l with
  | nil => cases hm
  | cons b rest ih =>
    simp only [List.map_cons, List.nodup_cons] at h
    rcases List.mem_cons.mp hm with rfl | hm2
    · exact List.find?_cons_of_pos _ (by simp [hid])
    · have hbx : ¬(b.id = x) := by
        intro hbe
        apply h.1
        rw [hbe, ← hid]
        exact List.mem_map.mpr ⟨ing, hm2, rfl⟩
      rw [List.find?_cons_of_neg _ (by simp [hbx])]
      exact ih h.2 hm2

theorem ingredientMatches_iff_find? (s : Store)
    (hnd : (s.ingredients.map (fun ing => ing.id)).Nodup)
    (key : String × String) (ri : RecipeIngredient) :
    ingredientMatches s key ri = true ↔
      ∃ ing, s.ingredients.find? (fun i => i.id = ri.ingredient) = some ing ∧
        ing.name = key.1 ∧ ing.measurement_unit = key.2 := by
  constructor
  · intro h
    simp only [ingredientMatches, List.any_eq_true, Bool.and_eq_true,
      decide_eq_true_eq] at h
    obtain ⟨ing, hm, ⟨hid, hname⟩, hmu⟩ := h
    exact ⟨ing, find?_eq_of_nodup_ids hnd hm hid, hname, hmu⟩
  · rintro ⟨ing, hf, hname, hmu⟩
    simp only [ingredientMatches, List.any_eq_true, Bool.and_eq_true,
      decide_eq_true_eq]
    refine ⟨ing, List.mem_of_find?_eq_some hf, ⟨?_, hname⟩, hmu⟩
    simpa using List.find?_some hf

theorem mem_group_value (g : List AggLine) :
    (g.map (fun l => l.1)).Nodup →
    ∀ key t, (key, t) ∈ g → t = sumFor g key := by
  induction g with
  | nil =>
    intro _ key t hm
    cases hm
  | cons p rest ih =>
    intro hnd key t hm
    simp only [List.map_cons, List.nodup_cons] at hnd
    rcases List.mem_cons.mp hm with heq | hm2
    · subst heq
      rw [sumFor_cons, if_pos rfl]
      rw [sumFor_eq_zero_of_not_mem rest key hnd.1]
      simp
    · have hne : p.1 ≠ key := by
        intro he
        apply hnd.1
        rw [he]
        exact List.mem_map.mpr ⟨(key, t), hm2, rfl⟩
      rw [sumFor_cons, if_neg hne]
      simpa using ih hnd.2 key t hm2

theorem sumFor_recipeLines (s : Store)
    (hnd : (s.ingredients.map (fun ing => ing.id)).Nodup)
    (rid : Nat) (key : String × String) (ls : List RecipeIngredient) :
    sumFor ((ls.filter (fun ri => ri.recipe = rid)).filterMap (fun ri =>
        (s.ingredients.find? (fun ing => ing.id = ri.ingredient)).map
          (fun ing => ((ing.name, ing.measurement_unit), ri.amount)))) key
      = ((ls.filter (fun ri => ri.recipe = rid && ingredientMatches s key ri)).map
          (fun ri => ri.amount)).sum := by
  induction ls with
  | nil => rfl
  | cons ri rest ih =>
    rw [List.filter_cons, List.filter_cons]
    by_cases hrec : ri.recipe = rid
    · rw [if_pos (by simp [hrec])]
      cases hf : s.ingredients.find? (fun ing => ing.id = ri.ingredient) with
      | none =>
        have hnm : ingredientMatches s key ri = false := by
          rw [Bool.eq_false_iff]
          intro hmt
          obtain ⟨ing, hfi, _, _⟩ := (ingredientMatches_iff_find? s hnd key ri).mp hmt
          rw [hf] at hfi
          cases hfi
        rw [if_neg (by simp [hnm])]
        simp only [List.filterMap_cons, hf, Option.map_none']
        exact ih
      | some ing =>
        by_cases hkey : (ing.name, ing.measurement_unit) = key
        · have hmt : ingredientMatches s key ri = true := by
            rw [ingredientMatches_iff_find? s hnd key ri]
            exact ⟨ing, hf, by rw [← hkey], by rw [← hkey]⟩
          rw [if_pos (by simp [hrec, hmt])]
          simp only [List.filterMap_cons, hf, Option.map_some']
          rw [sumFor_cons, if_pos hkey]
          simp only [List.map_cons, List.sum_cons]
          rw [ih]
        · have hmt : ingredientMatches s key ri = false := by
            rw [Bool.eq_false_iff]
            intro hmt2
            obtain ⟨ing2, hfi, hn2, hm2⟩ :=
              (ingredientMatches_iff_find? s hnd key ri).mp hmt2
            rw [hf] at hfi
            injection hfi with he
            subst he
            exact hkey (Prod.ext_iff.mpr ⟨hn2, hm2⟩)
          rw [if_neg (by simp [hmt])]
          simp only [List.filterMap_cons, hf, Option.map_some']
          rw [sumFor_cons, if_neg hkey]
          simpa using ih
    · rw [if_neg (by simp [hrec]), if_neg (by simp [hrec])]
      exact ih

theorem sumFor_append (l1 l2 : List AggLine) (key : String × String) :
    sumFor (l1 ++ l2) key = sumFor l1 key + sumFor l2 key := by
  simp [sumFor, List.filter_append]

theorem sumFor_flatMap (rs : List Recipe) (f : Recipe → List AggLine)
    (key : String × String) :
    sumFor (rs.flatMap f) key = (rs.map (fun r => sumFor (f r) key)).sum := by
  induction rs with
  | nil => rfl
  | cons r rest ih =>
    rw [List.flatMap_cons, sumFor_append, ih]
    simp

theorem sum_map_add {α : Type} (l : List α) (f g : α → Nat) :
    (l.map (fun x => f x + g x)).sum = (l.map f).sum + (l.map g).sum := by
  induction l with
  | nil => rfl
  | cons x rest ih =>
    simp only [List.map_cons, List.sum_cons, ih]
    omega

theorem sum_ite_id_zero (rs : List Recipe) (k amt : Nat) :
    (∀ r ∈ rs, r.id ≠ k) →
    (rs.map (fun r => if k = r.id then amt else 0)).sum = 0 := by
  induction rs with
  | nil =>
    intro _
    rfl
  | cons r rest ih =>
    intro h
    simp only [List.map_cons, List.sum_cons]
    rw [if_neg (fun he => h r (List.mem_cons_self _ _) he.symm)]
    rw [ih (fun x hx => h x (List.mem_cons_of_mem _ hx))]

theorem sum_single_recipe (rs : List Recipe) (k amt : Nat) :
    (rs.map (fun r => r.id)).Nodup →
    (rs.map (fun r => if k = r.id then amt else 0)).sum
      = if rs.any (fun r => r.id = k) = true then amt else 0 := by
  induction rs with
  | nil =>
    intro _
    rfl
  | cons r rest ih =>
    intro hnd
    simp only [List.map_cons, List.nodup_cons] at hnd
    simp only [List.map_cons, List.sum_cons, List.any_cons]
    by_cases h1 : k = r.id
    · rw [if_pos h1]
      have hz : ∀ x ∈ rest, x.id ≠ k := by
        intro x hx he
        exact hnd.1 (List.mem_map.mpr ⟨x, hx, by rw [he]; exact h1⟩)
      rw [sum_ite_id_zero rest k amt hz]
      rw [if_pos (by simp [h1.symm])]
      omega
    · rw [if_neg h1]
      rw [ih hnd.2]
      have hr : (decide (r.id = k)) = false :=
        decide_eq_false_iff_not.mpr (fun he => h1 he.symm)
      simp only [hr, Bool.false_or]
      omega

theorem aux_rhs_cons (rs : List Recipe) (ri : RecipeIngredient)
    (rest : List RecipeIngredient) (p : RecipeIngredient → Bool) :
    (rs.map (fun r => (((ri :: rest).filter (fun x => x.recipe = r.id && p x)).map
        (fun x => x.amount)).sum)).sum
      = (rs.map (fun r => if (decide (ri.recipe = r.id) && p ri) = true
            then ri.amount else 0)).sum
        + (rs.map (fun r => ((rest.filter (fun x => x.recipe = r.id && p x)).map
            (fun x => x.amount)).sum)).sum := by
  rw [← sum_map_add]
  apply congrArg List.sum
  apply List.map_congr_left
  intro r _
  rw [List.filter_cons]
  by_cases hc : (decide (ri.recipe = r.id) && p ri) = true
  · simp [hc]
  · simp [hc]

theorem sum_partition (rs : List Recipe) (ls : List RecipeIngredient)
    (p : RecipeIngredient → Bool) :
    (rs.map (fun r => r.id)).Nodup →
    ((ls.filter (fun ri => rs.any (fun r => r.id = ri.recipe) && p ri)).map
        (fun ri => ri.amount)).sum
      = (rs.map (fun r => ((ls.filter (fun ri => ri.recipe = r.id && p ri)).map
          (fun ri => ri.amount)).sum)).sum := by
  induction ls with
  | nil =>
    intro _
    simp
  | cons ri rest ih =>
    intro hnd
    rw [List.filter_cons, aux_rhs_cons]
    by_cases hp : p ri = true
    · by_cases hany : rs.any (fun r => r.id = ri.recipe) = true
      · rw [if_pos (by simp [hany, hp])]
        simp only [List.map_cons, List.sum_cons]
        rw [ih hnd]
        have hs : (rs.map (fun r => if (decide (ri.recipe = r.id) && p ri) = true
              then ri.amount else 0)).sum = ri.amount := by
          have he : (rs.map (fun r => if (decide (ri.recipe = r.id) && p ri) = true
                then ri.amount else 0))
              = rs.map (fun r => if ri.recipe = r.id then ri.amount else 0) := by
            apply List.map_congr_left
            intro r _
            by_cases hrr : ri.recipe = r.id <;> simp [hrr, hp]
          rw [he, sum_single_recipe rs ri.recipe ri.amount hnd, if_pos hany]
        rw [hs]
      · rw [if_neg (by rw [Bool.and_eq_true]; rintro ⟨h1, _⟩; exact hany h1)]
        have hz : (rs.map (fun r => if (decide (ri.recipe = r.id) && p ri) = true
              then ri.amount else 0)).sum = 0 := by
          have he : (rs.map (fun r => if (decide (ri.recipe = r.id) && p ri) = true
                then ri.amount else 0)) = rs.map (fun _ => 0) := by
            apply List.map_congr_left
            intro r hr
            have hne2 : ¬(r.id = ri.recipe) := by
              intro hre
              exact hany (List.any_eq_true.mpr ⟨r, hr, by simp [hre]⟩)
            have hd : decide (ri.recipe = r.id) = false :=
              decide_eq_false_iff_not.mpr (fun h => hne2 h.symm)
            simp [hd]
          rw [he]
          simp
        rw [ih hnd, hz]
        simp
    · rw [if_neg (by rw [Bool.and_eq_true]; rintro ⟨_, h2⟩; exact hp h2)]
      have hz : (rs.map (fun r => if (decide (ri.recipe = r.id) && p ri) = true
            then ri.amount else 0)).sum = 0 := by
        have he : (rs.map (fun r => if (decide (ri.recipe = r.id) && p ri) = true
              then ri.amount else 0)) = rs.map (fun _ => 0) := by
          apply List.map_congr_left
          intro r _
          simp [hp]
        rw [he]
        simp
      rw [ih hnd, hz]
      simp

theorem cartRecipes_ids_nodup (s : Store) (u : Nat)
    (h : (s.recipes.map (fun r => r.id)).Nodup) :
    ((cartRecipes s u).map (fun r => r.id)).Nodup := by
  have hsub : ((cartRecipes s u).map (fun r => r.id)).Sublist
      (s.recipes.map (fun r => r.id)) :=
    List.Sublist.map (fun r => r.id)
      (List.filter_sublist (p := fun r => inUserCart s u r.id) s.recipes)
  exact List.Nodup.sublist hsub h

theorem sumFor_cartLines (s : Store) (u : Nat)
    (hrnd : (s.recipes.map (fun r => r.id)).Nodup)
    (hind : (s.ingredients.map (fun ing => ing.id)).Nodup)
    (key : String × String) :
    sumFor (cartLines s u) key = claimTotal s u key := by
  unfold cartLines claimTotal
  rw [sumFor_flatMap]
  have hmapc : ((cartRecipes s u).map (fun r =>
        sumFor ((s.recipe_ingredients.filter (fun ri => ri.recipe = r.id)).filterMap
          (fun ri => (s.ingredients.find? (fun ing => ing.id = ri.ingredient)).map
            (fun ing => ((ing.name, ing.measurement_unit), ri.amount)))) key))
      = (cartRecipes s u).map (fun r =>
          ((s.recipe_ingredients.filter (fun ri => ri.recipe = r.id &&
            ingredientMatches s key ri)).map (fun ri => ri.amount)).sum) :=
    List.map_congr_left (fun r _ => sumFor_recipeLines s hind r.id key s.recipe_ingredients)
  rw [hmapc]
  rw [← sum_partition (cartRecipes s u) s.recipe_ingredients
    (fun ri => ingredientMatches s key ri) (cartRecipes_ids_nodup s u hrnd)]

theorem mem_keys_cartLines (s : Store) (u : Nat)
    (hind : (s.ingredients.map (fun ing => ing.id)).Nodup)
    (key : String × String) :
    key ∈ (cartLines s u).map (fun l => l.1) ↔
      ∃ ri ∈ s.recipe_ingredients,
        (cartRecipes s u).any (fun r => r.id = ri.recipe) = true ∧
        ingredientMatches s key ri = true := by
  obtain ⟨k1, k2⟩ := key
  unfold cartLines
  constructor
  · intro h
    obtain ⟨line, hline, hkey⟩ := List.mem_map.mp h
    obtain ⟨r, hr, hlr⟩ := List.mem_flatMap.mp hline
    obtain ⟨ri, hri, hjoin⟩ := List.mem_filterMap.mp hlr
    obtain ⟨hri_mem, hri_rec⟩ := List.mem_filter.mp hri
    rw [Option.map_eq_some'] at hjoin
    obtain ⟨ing, hf, hing⟩ := hjoin
    subst hing
    refine ⟨ri, hri_mem, ?_, ?_⟩
    · rw [List.any_eq_true]
      refine ⟨r, hr, ?_⟩
      simp only [decide_eq_true_eq] at hri_rec ⊢
      exact hri_rec.symm
    · rw [ingredientMatches_iff_find? s hind (k1, k2) ri]
      refine ⟨ing, hf, ?_, ?_⟩
      · have h1 := congrArg Prod.fst hkey
        simpa using h1
      · have h2 := congrArg Prod.snd hkey
        simpa using h2
  · rintro ⟨ri, hri, hany, hmt⟩
    rw [ingredientMatches_iff_find? s hind (k1, k2) ri] at hmt
    obtain ⟨ing, hf, hn, hm⟩ := hmt
    rw [List.any_eq_true] at hany
    obtain ⟨r, hr, hid⟩ := hany
    apply List.mem_map.mpr
    refine ⟨((ing.name, ing.measurement_unit), ri.amount), ?_, ?_⟩
    · apply List.mem_flatMap.mpr
      refine ⟨r, hr, ?_⟩
      apply List.mem_filterMap.mpr
      refine ⟨ri, ?_, ?_⟩
      · refine List.mem_filter.mpr ⟨hri, ?_⟩
        simp only [decide_eq_true_eq] at hid ⊢
        exact hid.symm
      · rw [hf]
        rfl
    · simp [Prod.mk.injEq, hn, hm]

/-- C1: for every user with a non-empty cart, the shopping-list query
succeeds and its output groups the junction rows of the cart's recipes by
stored ingredient identity: each output line's total is the arithmetic sum
of the amounts of exactly the `RecipeIngredient` rows for that identity
across the cart's recipes (each row counted once), every such identity
appears exactly once, and the output is sorted ascending by ingredient
name. -/
theorem C1_shopping_list_aggregation (s : Store) (u : Nat)
    (hwf : StoreWF s) (hne : cartRecipes s u ≠ []) :
    ∃ agg, download_shopping_cart s u = .ok agg ∧
      (∀ line ∈ agg, line.2 = claimTotal s u line.1) ∧
      (agg.map (fun l => l.1)).Nodup ∧
      (∀ key, (∃ t, (key, t) ∈ agg) ↔
        ∃ ri ∈ s.recipe_ingredients,
          (cartRecipes s u).any (fun r => r.id = ri.recipe) = true ∧
          ingredientMatches s key ri = true) ∧
      List.Sorted lineLe agg := by
  obtain ⟨hrnd, hind, _hidnd, _hcnd, _hfk⟩ := hwf
  refine ⟨aggregate s u, ?_, ?_, ?_, ?_, ?_⟩
  · simp [download_shopping_cart, hne]
  · intro line hline
    obtain ⟨key, t⟩ := line
    have hline2 : (key, t) ∈ groupLines (cartLines s u) :=
      (List.mem_insertionSort lineLe).mp hline
    have hval := mem_group_value (groupLines (cartLines s u))
      (keys_nodup_groupLines _) key t hline2
    rw [hval, sumFor_groupLines]
    exact sumFor_cartLines s u hrnd hind key
  · have hperm := List.perm_insertionSort lineLe (groupLines (cartLines s u))
    exact ((hperm.map (fun l => l.1)).nodup_iff).mpr (keys_nodup_groupLines _)
  · intro key
    constructor
    · rintro ⟨t, ht⟩
      have ht2 : (key, t) ∈ groupLines (cartLines s u) :=
        (List.mem_insertionSort lineLe).mp ht
      have hk : key ∈ (groupLines (cartLines s u)).map (fun l => l.1) :=
        List.mem_map.mpr ⟨(key, t), ht2, rfl⟩
      rw [keys_groupLines] at hk
      exact (mem_keys_cartLines s u hind key).mp hk
    · intro hex
      have hk : key ∈ (cartLines s u).map (fun l => l.1) :=
        (mem_keys_cartLines s u hind key).mpr hex
      rw [← keys_groupLines] at hk
      obtain ⟨line, hline, hkey⟩ := List.mem_map.mp hk
      obtain ⟨key2, t⟩ := line
      obtain rfl : key2 = key := hkey
      exact ⟨t, (List.mem_insertionSort lineLe).mpr hline⟩
  · exact List.sorted_insertionSort lineLe _

theorem C1_witness :
    ∃ agg, download_shopping_cart sExample 1 = .ok agg ∧
      (∀ line ∈ agg, line.2 = claimTotal sExample 1 line.1) ∧
      (agg.map (fun l => l.1)).Nodup ∧
      (∀ key, (∃ t, (key, t) ∈ agg) ↔
        ∃ ri ∈ sExample.recipe_ingredients,
          (cartRecipes sExample 1).any (fun r => r.id = ri.recipe) = true ∧
          ingredientMatches sExample key ri = true) ∧
      List.Sorted lineLe agg :=
  C1_shopping_list_aggregation sExample 1 (by decide) (by decide)

end Foodgram
